import Mathlib

/-!
Verification of the Gaming_Leaderboard update engine.

This file gives a shallow embedding of the parts of the repository that the
claims are about:

* the Kafka batch handler `eachBatch` of the leaderboard-updater consumer
  (src/unnamed/part_000): parsing/validation of messages, snapshotting of
  initial ranks, grouping of events by `playerId:gameMode`, sequential
  processing of hot groups, pipelined processing of standalone events, and
  rank-change publications;
* the Redis service (src/unnamed/part_005): `getPlayerRank`,
  `updateWeeklyLeaderboard`, `getWeekIdentifier`, `needsRebuild`;
* the Kafka admin helper `resetConsumerOffsetToEarliest` (src/backend/util/db.js).

The Redis store is modelled with structured keys (`RKey`), sorted sets as
association lists from member to score (Redis ZINCRBY/ZREVRANK semantics,
including the lexicographic tie-break of equal scores), and hashes as
association lists from field name to value.  JavaScript numbers that flow
into scores are modelled as `Int` (the engine only ever adds them);
a raw event field that may be absent is an `Option`.
-/

namespace GamingLeaderboard

/-- Character-list lexicographic strictly-less test (Redis compares sorted-set
members bytewise; `String.lt` itself is not kernel-reducible, so we use our
own structurally recursive comparison on the character list). -/
def charsLt : List Char → List Char → Bool
  | [], [] => false
  | [], _ :: _ => true
  | _ :: _, [] => false
  | a :: as, b :: bs => if a < b then true else if b < a then false else charsLt as bs

/-- Lexicographic strictly-less on strings, used for the sorted-set tie-break. -/
def strLt (a b : String) : Bool := charsLt a.data b.data

/-- Does the character list `l` start with `p`? -/
def charsStartWith : List Char → List Char → Bool
  | _, [] => true
  | [], _ :: _ => false
  | a :: as, b :: bs => a = b && charsStartWith as bs

/-- JavaScript `String.prototype.startsWith` / the Redis `MATCH player:*` glob. -/
def strStartsWith (s p : String) : Bool := charsStartWith s.data p.data

/-- Does `l` contain `p` as a contiguous sublist? -/
def charsContain (l p : List Char) : Bool :=
  charsStartWith l p ||
    match l with
    | [] => false
    | _ :: rest => charsContain rest p

/-- JavaScript `String.prototype.includes`. -/
def strIncludes (s p : String) : Bool := charsContain s.data p.data

/-- JSON-ish value for the `score` field of a decoded message. -/
inductive JVal where
  | null : JVal
  | str : String → JVal
  | num : Int → JVal
deriving DecidableEq, Repr

/-- A decoded `score-submitted` message before validation; `none` fields are
absent in the JSON object. -/
structure RawEvent where
  playerId : Option String
  username : Option String
  gameMode : Option Nat
  score : Option JVal
deriving DecidableEq, Repr

/-- The validation test of the batch handler (src/unnamed/part_000 line 115):
`!event.playerId || event.score === undefined || event.score === null ||
event.score === ''`.  `!event.playerId` is true for a missing or empty
player id; the `===` comparisons match only `undefined`, `null` and the
empty string. -/
def eventInvalid (e : RawEvent) : Bool :=
  (match e.playerId with
   | none => true
   | some s => s = "") ||
  (match e.score with
   | none => true
   | some .null => true
   | some (.str s) => s = ""
   | some (.num _) => false)

/-- The parse-and-validate loop of `eachBatch` (src/unnamed/part_000 lines
111-123): a message whose JSON fails to parse is modelled as `none`; invalid
events are skipped with `continue`; the rest accumulate in arrival order. -/
def parseBatch : List (Option RawEvent) → List RawEvent
  | [] => []
  | none :: rest => parseBatch rest
  | some e :: rest => if eventInvalid e then parseBatch rest else e :: parseBatch rest

/-- A validated score event as used by the processing paths of `eachBatch`. -/
structure ScoreEvent where
  playerId : String
  username : String
  gameMode : Nat
  score : Int
deriving DecidableEq, Repr

/-- Structured Redis keys used by the engine. -/
inductive RKey where
  | player : String → RKey                 -- `player:{playerId}` hash
  | lbGlobal : Nat → RKey                  -- `leaderboard:{gameMode}:global`
  | lbDaily : Nat → String → RKey          -- `leaderboard:{gameMode}:daily:{date}`
  | lbWeekly : Nat → String → RKey         -- `leaderboard:{gameMode}:weekly:{week}`
deriving DecidableEq, Repr

/-- Redis hash field values: strings or integers (`HINCRBY` needs integers). -/
inductive RVal where
  | str : String → RVal
  | int : Int → RVal
deriving DecidableEq, Repr

/-- The Redis store: sorted sets and hashes as association lists per key, plus
the TTL set by `EXPIRE`.  An empty association list means the key is absent. -/
structure Store where
  zsets : RKey → List (String × Int)
  hashes : RKey → List (String × RVal)
  ttls : RKey → Option Nat

def emptyStore : Store := ⟨fun _ => [], fun _ => [], fun _ => none⟩

/-- Score of a member in one sorted set. -/
def zlookup : List (String × Int) → String → Option Int
  | [], _ => none
  | (m', v) :: rest, m => if m' = m then some v else zlookup rest m

/-- `ZINCRBY` on one sorted set: add to the member's score, creating the
member at `0 + delta` if absent. -/
def zupdate : List (String × Int) → String → Int → List (String × Int)
  | [], m, d => [(m, d)]
  | (m', v) :: rest, m, d =>
      if m' = m then (m', v + d) :: rest else (m', v) :: zupdate rest m d

/-- Value of a hash field. -/
def hlookup : List (String × RVal) → String → Option RVal
  | [], _ => none
  | (f', v) :: rest, f => if f' = f then some v else hlookup rest f

/-- `HSET` of one field. -/
def hupdate : List (String × RVal) → String → RVal → List (String × RVal)
  | [], f, v => [(f, v)]
  | (f', v') :: rest, f, v =>
      if f' = f then (f', v) :: rest else (f', v') :: hupdate rest f v

/-- `ZINCRBY key delta member` on the store. -/
def zincrby (s : Store) (k : RKey) (d : Int) (m : String) : Store :=
  { s with zsets := fun k' => if k' = k then zupdate (s.zsets k) m d else s.zsets k' }

/-- `EXPIRE key ttl` on the store. -/
def expireKey (s : Store) (k : RKey) (ttl : Nat) : Store :=
  { s with ttls := fun k' => if k' = k then some ttl else s.ttls k' }

/-- `HSET key field value` on the store. -/
def hset1 (s : Store) (k : RKey) (f : String) (v : RVal) : Store :=
  { s with hashes := fun k' => if k' = k then hupdate (s.hashes k) f v else s.hashes k' }

/-- `HSET key obj` for an object literal: sets each field in order. -/
def hsetAll (s : Store) (k : RKey) (fields : List (String × RVal)) : Store :=
  fields.foldl (fun s fv => hset1 s k fv.1 fv.2) s

/-- `HINCRBY key field delta`: an absent field starts at 0.  (`HINCRBY` on a
non-integer value is a Redis error; the engine never reaches that case, and we
model it as leaving the store unchanged.) -/
def hincrby (s : Store) (k : RKey) (f : String) (d : Int) : Store :=
  match hlookup (s.hashes k) f with
  | none => hset1 s k f (.int d)
  | some (.int n) => hset1 s k f (.int (n + d))
  | some (.str _) => s

/-- `EXISTS player:{id}` as used by the batch handler. -/
def existsPlayer (s : Store) (id : String) : Bool :=
  !(s.hashes (.player id)).isEmpty

/-- Result of `getPlayerRank`: 1-indexed rank and current score. -/
structure RankScore where
  rank : Nat
  score : Int
deriving DecidableEq, Repr

/-- `ZREVRANK`: the number of members placed strictly before `m` in the
descending order (higher score first; equal scores ordered by descending
member lexicographic order); `none` if `m` is not a member. -/
def zrevrank (l : List (String × Int)) (m : String) : Option Nat :=
  match zlookup l m with
  | none => none
  | some sc => some (l.countP fun q => decide (sc < q.2) || (decide (q.2 = sc) && strLt m q.1))

/-- `redisService.getPlayerRank(gameMode, playerId, "global")`
(src/unnamed/part_005 lines 230-250): `zrevrank` plus `zscore` on the global
leaderboard, converting the 0-indexed rank to 1-indexed. -/
def getPlayerRank (s : Store) (gm : Nat) (p : String) : Option RankScore :=
  let l := s.zsets (.lbGlobal gm)
  match zrevrank l p, zlookup l p with
  | some r, some sc => some ⟨r + 1, sc⟩
  | _, _ => none

/-- `redisService.updateWeeklyLeaderboard` (src/unnamed/part_005 lines
269-283): `Number(score)` is modelled as `Option Int` (`none` when the
conversion yields `NaN`); a `NaN` or zero score skips the update with a
warning, otherwise `ZINCRBY` the weekly set and refresh its 28-day TTL. -/
def updateWeeklyLeaderboard (weekId : String) (s : Store) (gm : Nat) (p : String)
    (score : Option Int) : Store :=
  match score with
  | none => s
  | some n =>
      if n = 0 then s
      else expireKey (zincrby s (.lbWeekly gm weekId) n p) (.lbWeekly gm weekId)
        (28 * 24 * 60 * 60)

/-- The time-dependent strings the handler computes once per batch/event:
`today` (UTC date for the daily bucket), the current week identifier, and the
`created_at` timestamp for newly created players. -/
structure Clock where
  today : String
  weekId : String
  now : String
deriving DecidableEq, Repr

/-- A rank-change publication, as passed to
`kafkaService.publishLeaderboardUpdated`. -/
structure RankChange where
  gameMode : Nat
  playerId : String
  newRank : Nat
  oldRank : Option Nat
  score : Int
deriving DecidableEq, Repr

/-- One sequential (hot-group path) application of an event
(src/unnamed/part_000 lines 209-246): check `EXISTS player:{id}`, queue the
pipeline (create-or-rename, global/daily `ZINCRBY`, daily `EXPIRE`, player
stat `HINCRBY`s), await `updateWeeklyLeaderboard`, then execute the pipeline.
The weekly update touches only `lbWeekly` keys, which the pipeline never
touches, so applying it first matches the real execution order. -/
def applyEvent (c : Clock) (s0 : Store) (e : ScoreEvent) : Store :=
  let pexists := existsPlayer s0 e.playerId
  let s := updateWeeklyLeaderboard c.weekId s0 e.gameMode e.playerId (some e.score)
  let s :=
    if pexists then hset1 s (.player e.playerId) "username" (.str e.username)
    else hsetAll s (.player e.playerId)
      [("username", .str e.username), ("total_score", .int 0),
       ("games_played", .int 0), ("created_at", .str c.now)]
  let s := zincrby s (.lbGlobal e.gameMode) e.score e.playerId
  let s := zincrby s (.lbDaily e.gameMode c.today) e.score e.playerId
  let s := expireKey s (.lbDaily e.gameMode c.today) (7 * 24 * 60 * 60)
  let s := hincrby s (.player e.playerId) "total_score" e.score
  hincrby s (.player e.playerId) "games_played" 1

/-- One standalone event's operations in the single batched pipeline
(src/unnamed/part_000 lines 302-336).  Crucially, the `EXISTS player:{id}`
check is awaited while the pipeline is still being built, i.e. against the
store as it was before the pipeline executes (`snap`), not against the store
`s` that already contains the queued operations of earlier standalone events
of the same batch.  The fire-and-forget weekly update only touches `lbWeekly`
keys, disjoint from every pipeline key, so it is applied in line. -/
def applySingleton (c : Clock) (snap : Store) (s : Store) (e : ScoreEvent) : Store :=
  let pexists := existsPlayer snap e.playerId
  let s := updateWeeklyLeaderboard c.weekId s e.gameMode e.playerId (some e.score)
  let s :=
    if pexists then hset1 s (.player e.playerId) "username" (.str e.username)
    else hsetAll s (.player e.playerId)
      [("username", .str e.username), ("total_score", .int 0),
       ("games_played", .int 0), ("created_at", .str c.now)]
  let s := zincrby s (.lbGlobal e.gameMode) e.score e.playerId
  let s := zincrby s (.lbDaily e.gameMode c.today) e.score e.playerId
  let s := expireKey s (.lbDaily e.gameMode c.today) (7 * 24 * 60 * 60)
  let s := hincrby s (.player e.playerId) "total_score" e.score
  hincrby s (.player e.playerId) "games_played" 1

/-- The grouping key `` `${event.playerId}:${event.gameMode}` `` of the batch
handler, modelled as the pair (the template string is injective in the pair,
since the decimal rendering of `gameMode` contains no colon and the segment
after the last colon recovers it). -/
def eventKey (e : ScoreEvent) : String × Nat := (e.playerId, e.gameMode)

/-- The events of a batch whose key is `k`, in arrival order
(`eventGroups.get(key)`). -/
def grp (evs : List ScoreEvent) (k : String × Nat) : List ScoreEvent :=
  evs.filter fun e => decide (eventKey e = k)

/-- First-occurrence deduplication with an accumulator of keys already seen
(structural recursion, so that concrete batches evaluate in the kernel). -/
def dedupKeysAux (seen : List (String × Nat)) : List (String × Nat) → List (String × Nat)
  | [] => []
  | k :: rest =>
    if k ∈ seen then dedupKeysAux seen rest
    else k :: dedupKeysAux (k :: seen) rest

/-- First-occurrence deduplication: the iteration order of the JavaScript
`Map` used for `eventGroups` (insertion order). -/
def dedupKeys (l : List (String × Nat)) : List (String × Nat) :=
  dedupKeysAux [] l

/-- The keys of the batch in `Map` iteration order. -/
def batchKeys (evs : List ScoreEvent) : List (String × Nat) :=
  dedupKeys (evs.map eventKey)

/-- Keys with two or more events ("hot groups", processed sequentially). -/
def hotKeys (evs : List ScoreEvent) : List (String × Nat) :=
  (batchKeys evs).filter fun k => decide (2 ≤ (grp evs k).length)

/-- The standalone events (`standaloneEvents`): those whose key occurs exactly
once in the batch, in arrival order. -/
def singletonEvents (evs : List ScoreEvent) : List ScoreEvent :=
  evs.filter fun e => decide ((grp evs (eventKey e)).length = 1)

/-- The initial rank snapshot taken before any update of the batch
(src/unnamed/part_000 lines 153-170): `oldRankData?.rank || null` for the
(playerId, gameMode) key, read from the pre-batch store. -/
def initialRank (sB : Store) (k : String × Nat) : Option Nat :=
  (getPlayerRank sB k.2 k.1).map (·.rank)

/-- `currentRanks.has(key) ? currentRanks.get(key) : initialRanks.get(key)`:
the tracked rank if the key is already in `currentRanks`, else the initial
snapshot. -/
def prevOf (tracked initR : Option Nat) : Option Nat :=
  match tracked with
  | some r => some r
  | none => initR

/-- Sequential processing of one hot group (src/unnamed/part_000 lines
198-295).  `tracked` is `currentRanks.get(key)` (`none` when the key is not
yet in `currentRanks`); `initR` is `initialRanks.get(key)`.  After each
application the new rank is read; if present it becomes the tracked rank, and
outside replay a rank change is published when the new rank differs from
`previousRank`. -/
def runHotGroup (c : Clock) (rebuilding : Bool) (initR : Option Nat) :
    Option Nat → Store → List ScoreEvent → Store × List RankChange
  | _, s, [] => (s, [])
  | tracked, s, e :: rest =>
    let prev : Option Nat := prevOf tracked initR
    let s' := applyEvent c s e
    match getPlayerRank s' e.gameMode e.playerId with
    | none => runHotGroup c rebuilding initR tracked s' rest
    | some rd =>
      let r := runHotGroup c rebuilding initR (some rd.rank) s' rest
      if rebuilding then r
      else if some rd.rank = prev then r
      else (r.1, ⟨e.gameMode, e.playerId, rd.rank, prev, rd.score⟩ :: r.2)

/-- Processing of all hot groups, in `Map` iteration order of their keys. -/
def runHotKeys (c : Clock) (rebuilding : Bool) (initR : (String × Nat) → Option Nat)
    (evs : List ScoreEvent) : Store → List (String × Nat) → Store × List RankChange
  | s, [] => (s, [])
  | s, k :: ks =>
    let r := runHotGroup c rebuilding (initR k) none s (grp evs k)
    let r' := runHotKeys c rebuilding initR evs r.1 ks
    (r'.1, r.2 ++ r'.2)

/-- Store effect of the standalone pipeline: the queued operations execute in
order, but every `EXISTS` check was taken against the pre-pipeline store
`snap`. -/
def runSingletons (c : Clock) (snap : Store) : Store → List ScoreEvent → Store
  | s, [] => s
  | s, e :: rest => runSingletons c snap (applySingleton c snap s e) rest

/-- Rank-change publications for the standalone events (src/unnamed/part_000
lines 341-379): outside replay, each standalone event's new rank is read from
the post-pipeline store `sF` and compared with the initial pre-batch
snapshot. -/
def singletonPubs (rebuilding : Bool) (sB sF : Store) (evs : List ScoreEvent) :
    List RankChange :=
  if rebuilding then []
  else
    evs.filterMap fun e =>
      let prev := initialRank sB (eventKey e)
      match getPlayerRank sF e.gameMode e.playerId with
      | none => none
      | some rd =>
        if some rd.rank = prev then none
        else some ⟨e.gameMode, e.playerId, rd.rank, prev, rd.score⟩

/-- The whole `eachBatch` handler for a list of already-validated events:
snapshot initial ranks, process hot groups sequentially, run the standalone
pipeline, then emit the standalone rank diffs.  Returns the final store and
the list of `publishLeaderboardUpdated` calls in order. -/
def processBatch (c : Clock) (rebuilding : Bool) (sB : Store)
    (events : List ScoreEvent) : Store × List RankChange :=
  if events = [] then (sB, [])
  else
    let hot := runHotKeys c rebuilding (initialRank sB) events sB (hotKeys events)
    let singles := singletonEvents events
    let s2 := runSingletons c hot.1 hot.1 singles
    (s2, hot.2 ++ singletonPubs rebuilding sB s2 singles)

/-- One consumed batch: the clock at processing time, the replay flag, and
the validated events. -/
structure BatchIn where
  clock : Clock
  rebuilding : Bool
  events : List ScoreEvent

/-- Processing a sequence of batches, threading the store. -/
def processBatches (bs : List BatchIn) (s : Store) : Store :=
  bs.foldl (fun s b => (processBatch b.clock b.rebuilding s b.events).1) s

/-- All events of a batch sequence, in order. -/
def eventsOf (bs : List BatchIn) : List ScoreEvent :=
  bs.flatMap (·.events)

/-- Outcomes of the external calls made by `resetConsumerOffsetToEarliest`:
whether `admin.connect()`, `consumer.disconnect()`, `admin.deleteGroups`
(`none` means success, `some msg` an error with message `msg`),
`admin.disconnect()` and the final `consumer.connect()` succeed. -/
structure ResetOutcome where
  adminConnectOk : Bool
  consumerDisconnectOk : Bool
  deleteError : Option String
  adminDisconnectOk : Bool
  reconnectOk : Bool
deriving DecidableEq, Repr

/-- `resetConsumerOffsetToEarliest` (src/backend/util/db.js lines 86-143),
returning the function's boolean result together with its log lines.  The
consumer-disconnect error and the group-delete error are caught by inner
`try`/`catch` blocks that only log (the delete error message is tested for
the substring `"does not exist"` purely to choose the log text); a failure of
`admin.connect()` or `admin.disconnect()` lands in the outer `catch`
(returning `false`), and a failed consumer reconnect returns `false`. -/
def resetConsumerOffsetToEarliest (o : ResetOutcome) : Bool × List String :=
  if !o.adminConnectOk then (false, ["Error resetting consumer offset"])
  else
    let log1 :=
      if o.consumerDisconnectOk then "Disconnected consumer"
      else "Consumer not connected, skipping disconnect"
    let log2 :=
      match o.deleteError with
      | none => "Deleted consumer group - offsets will reset to earliest"
      | some msg =>
        if strIncludes msg "does not exist" then
          "Consumer group does not exist yet (will start from beginning)"
        else "Could not delete consumer group: " ++ msg
    if !o.adminDisconnectOk then (false, [log1, log2, "Error resetting consumer offset"])
    else if !o.reconnectOk then (false, [log1, log2, "Error reconnecting consumer"])
    else (true, [log1, log2, "Reconnected consumer"])

/-- The view of the store that `needsRebuild` consults: the ids of the seeded
game modes (from the `game_modes` hash, via `getAllGameModes`), the `ZCARD`
of each key, and the full key space (enumerated by the cursor `SCAN`). -/
structure StoreView where
  gameModes : List Nat
  zcard : String → Nat
  keys : List String

/-- The player keys found by `SCAN cursor MATCH player:* COUNT 100` after
filtering out the rate-limiter keys (`!key.includes(":last_submission")`). -/
def playerScanKeys (v : StoreView) : List String :=
  (v.keys.filter fun k => strStartsWith k "player:").filter
    fun k => !strIncludes k ":last_submission"

/-- `redisService.needsRebuild`: if the store check throws, return `true`
(fail-safe); with no seeded game modes, rebuild iff the player scan is empty;
otherwise return `false` as soon as some global leaderboard is non-empty, and
otherwise rebuild iff the player scan is empty.  The cursor loop with its
early exit is modelled by its net effect on the scanned key list. -/
def needsRebuild (v : StoreView) (storeErr : Bool) : Bool :=
  if storeErr then true
  else if v.gameModes.isEmpty then (playerScanKeys v).isEmpty
  else if v.gameModes.any (fun id => 0 < v.zcard ("leaderboard:" ++ toString id ++ ":global"))
    then false
  else (playerScanKeys v).isEmpty

/-- JavaScript `weekNumber.toString().padStart(2, "0")`. -/
def padStart2 (s : String) : String :=
  String.mk (List.replicate (2 - s.length) '0') ++ s

/-- `getWeekIdentifier`: the current date is represented by its local year,
the exact difference `date - startOfYear` in milliseconds, and
`startOfYear.getDay()` (0 = Sunday).  `pastDaysOfYear` is the *fractional*
number of days `(date - startOfYear) / 86400000` (JavaScript number
arithmetic modelled exactly over `ℚ`), and
`weekNumber = Math.ceil((pastDaysOfYear + startOfYear.getDay() + 1) / 7)`. -/
def getWeekIdentifier (year : Int) (msSinceJan1 : Nat) (weekdayJan1 : Nat) : String :=
  let pastDaysOfYear : ℚ := (msSinceJan1 : ℚ) / 86400000
  let weekNumber : ℤ := ⌈(pastDaysOfYear + (weekdayJan1 : ℚ) + 1) / 7⌉
  toString year ++ "-W" ++ padStart2 (toString weekNumber)

/-- The week identifier as claim C8 words it: the same formula but with
`daysSinceJan1` an *integer count of whole days* since January 1. -/
def claimWeekIdentifier (year : Int) (msSinceJan1 : Nat) (weekdayJan1 : Nat) : String :=
  let daysSinceJan1 : Nat := msSinceJan1 / 86400000
  let weekNumber : ℤ := ⌈((daysSinceJan1 : ℚ) + (weekdayJan1 : ℚ) + 1) / 7⌉
  toString year ++ "-W" ++ padStart2 (toString weekNumber)

/-- The score of `p` on the global leaderboard of `gm`. -/
def globalScore (s : Store) (gm : Nat) (p : String) : Option Int :=
  zlookup (s.zsets (.lbGlobal gm)) p

/-- The effect of a list of `ZINCRBY` deltas on an optional member score. -/
def zafter (o : Option Int) (l : List Int) : Option Int :=
  if l = [] then o else some (o.getD 0 + l.sum)

/-- The scores of the events of `l` whose key is `K`, in order. -/
def scoresFor (K : String × Nat) (l : List ScoreEvent) : List Int :=
  (grp l K).map (·.score)

/-- The publications whose (playerId, gameMode) is `K`, in order. -/
def pubsForKey (K : String × Nat) (l : List RankChange) : List RankChange :=
  l.filter fun rc => decide ((rc.playerId, rc.gameMode) = K)

/-- Specification trace for sequential rank-diff notifications: apply the
events in order; after each application read the player's rank; publish when
it differs from `prev`, whose next value is the rank just read (so `prev` is
always the rank immediately after the previous application of the sequence,
seeded with the pre-batch snapshot). -/
def rankDiffTrace (c : Clock) : Option Nat → Store → List ScoreEvent → List RankChange
  | _, _, [] => []
  | prev, s, e :: rest =>
    match getPlayerRank (applyEvent c s e) e.gameMode e.playerId with
    | none => rankDiffTrace c prev (applyEvent c s e) rest
    | some rd =>
      (if some rd.rank = prev then []
        else [⟨e.gameMode, e.playerId, rd.rank, prev, rd.score⟩])
        ++ rankDiffTrace c (some rd.rank) (applyEvent c s e) rest

/-- The events of the hot groups processed before the hot group of `K`. -/
def hotPrefixEvents (evs : List ScoreEvent) (K : String × Nat) : List ScoreEvent :=
  ((hotKeys evs).takeWhile fun k => decide (k ≠ K)).flatMap (grp evs)

/-! ### Basic lemmas about the store operations -/

theorem zlookup_zupdate (l : List (String × Int)) (m m' : String) (d : Int) :
    zlookup (zupdate l m d) m' =
      if m' = m then some ((zlookup l m).getD 0 + d) else zlookup l m' := by
  induction l with
  | nil =>
    simp only [zupdate, zlookup]
    by_cases hm : m = m'
    · subst hm; simp
    · have hmm : ¬ (m' = m) := fun h => hm h.symm
      simp [hm, hmm]
  | cons q rest ih =>
    obtain ⟨mq, vq⟩ := q
    simp only [zupdate]
    by_cases hq : mq = m
    · subst hq
      simp only [if_pos rfl, zlookup]
      by_cases hm : mq = m'
      · subst hm; simp
      · have hmm : ¬ (m' = mq) := fun h => hm h.symm
        simp [hm, hmm]
    · simp only [if_neg hq, zlookup, ih]
      by_cases hm : mq = m'
      · subst hm
        simp [hq]
      · simp [hm]

theorem hlookup_hupdate (l : List (String × RVal)) (f f' : String) (v : RVal) :
    hlookup (hupdate l f v) f' = if f' = f then some v else hlookup l f' := by
  induction l with
  | nil =>
    simp only [hupdate, hlookup]
    by_cases hm : f = f'
    · subst hm; simp
    · have hmm : ¬ (f' = f) := fun h => hm h.symm
      simp [hm, hmm]
  | cons q rest ih =>
    obtain ⟨fq, vq⟩ := q
    simp only [hupdate]
    by_cases hq : fq = f
    · subst hq
      simp only [if_pos rfl, hlookup]
      by_cases hm : fq = f'
      · subst hm; simp
      · have hmm : ¬ (f' = fq) := fun h => hm h.symm
        simp [hm, hmm]
    · simp only [if_neg hq, hlookup, ih]
      by_cases hm : fq = f'
      · subst hm
        simp [hq]
      · simp [hm]

@[simp] theorem zincrby_zsets (s : Store) (k : RKey) (d : Int) (m : String) (k' : RKey) :
    (zincrby s k d m).zsets k' =
      if k' = k then zupdate (s.zsets k) m d else s.zsets k' := rfl

@[simp] theorem zincrby_hashes (s : Store) (k : RKey) (d : Int) (m : String) :
    (zincrby s k d m).hashes = s.hashes := rfl

@[simp] theorem zincrby_ttls (s : Store) (k : RKey) (d : Int) (m : String) :
    (zincrby s k d m).ttls = s.ttls := rfl

@[simp] theorem expireKey_zsets (s : Store) (k : RKey) (t : Nat) :
    (expireKey s k t).zsets = s.zsets := rfl

@[simp] theorem expireKey_hashes (s : Store) (k : RKey) (t : Nat) :
    (expireKey s k t).hashes = s.hashes := rfl

@[simp] theorem expireKey_ttls (s : Store) (k : RKey) (t : Nat) (k' : RKey) :
    (expireKey s k t).ttls k' = if k' = k then some t else s.ttls k' := rfl

@[simp] theorem hset1_zsets (s : Store) (k : RKey) (f : String) (v : RVal) :
    (hset1 s k f v).zsets = s.zsets := rfl

@[simp] theorem hset1_ttls (s : Store) (k : RKey) (f : String) (v : RVal) :
    (hset1 s k f v).ttls = s.ttls := rfl

@[simp] theorem hset1_hashes (s : Store) (k : RKey) (f : String) (v : RVal) (k' : RKey) :
    (hset1 s k f v).hashes k' =
      if k' = k then hupdate (s.hashes k) f v else s.hashes k' := rfl

@[simp] theorem hsetAll_zsets (s : Store) (k : RKey) (fs : List (String × RVal)) :
    (hsetAll s k fs).zsets = s.zsets := by
  induction fs generalizing s with
  | nil => rfl
  | cons fv rest ih => simp [hsetAll, List.foldl_cons, ih, hsetAll] at ih ⊢; exact ih _

@[simp] theorem hsetAll_ttls (s : Store) (k : RKey) (fs : List (String × RVal)) :
    (hsetAll s k fs).ttls = s.ttls := by
  induction fs generalizing s with
  | nil => rfl
  | cons fv rest ih => simp [hsetAll, List.foldl_cons, hsetAll] at ih ⊢; exact ih _

@[simp] theorem hincrby_zsets (s : Store) (k : RKey) (f : String) (d : Int) :
    (hincrby s k f d).zsets = s.zsets := by
  unfold hincrby
  split <;> rfl

@[simp] theorem hincrby_ttls (s : Store) (k : RKey) (f : String) (d : Int) :
    (hincrby s k f d).ttls = s.ttls := by
  unfold hincrby
  split <;> rfl

theorem updateWeeklyLeaderboard_zsets_ne (w : String) (s : Store) (gm : Nat) (p : String)
    (sc : Option Int) (k : RKey) (hk : ∀ gm' w', k ≠ .lbWeekly gm' w') :
    (updateWeeklyLeaderboard w s gm p sc).zsets k = s.zsets k := by
  unfold updateWeeklyLeaderboard
  cases sc with
  | none => rfl
  | some n =>
    by_cases h0 : n = 0
    · simp [h0]
    · simp [h0, hk gm w]

theorem updateWeeklyLeaderboard_hashes (w : String) (s : Store) (gm : Nat) (p : String)
    (sc : Option Int) : (updateWeeklyLeaderboard w s gm p sc).hashes = s.hashes := by
  unfold updateWeeklyLeaderboard
  cases sc with
  | none => rfl
  | some n =>
    by_cases h0 : n = 0 <;> simp [h0]

theorem updateWeeklyLeaderboard_ttls_ne (w : String) (s : Store) (gm : Nat) (p : String)
    (sc : Option Int) (k : RKey) (hk : ∀ gm' w', k ≠ .lbWeekly gm' w') :
    (updateWeeklyLeaderboard w s gm p sc).ttls k = s.ttls k := by
  unfold updateWeeklyLeaderboard
  cases sc with
  | none => rfl
  | some n =>
    by_cases h0 : n = 0
    · simp [h0]
    · simp [h0, hk gm w]

/-! ### Claim C4: no publications while rebuilding -/

theorem runHotGroup_rebuilding_pubs (c : Clock) (i : Option Nat) :
    ∀ (l : List ScoreEvent) (t : Option Nat) (s : Store),
      (runHotGroup c true i t s l).2 = [] := by
  intro l
  induction l with
  | nil => intro t s; rfl
  | cons e rest ih =>
    intro t s
    simp only [runHotGroup]
    split
    · exact ih _ _
    · simp [ih]

theorem runHotKeys_rebuilding_pubs (c : Clock) (ir : (String × Nat) → Option Nat)
    (evs : List ScoreEvent) :
    ∀ (ks : List (String × Nat)) (s : Store),
      (runHotKeys c true ir evs s ks).2 = [] := by
  intro ks
  induction ks with
  | nil => intro s; rfl
  | cons k rest ih =>
    intro s
    simp only [runHotKeys]
    simp [runHotGroup_rebuilding_pubs, ih]

/-- Claim C4: while the engine is rebuilding (replay mode), a processed batch
publishes no `leaderboard-updated` message — neither on the hot-group path
nor on the standalone path. -/
theorem replay_publishes_nothing (c : Clock) (s : Store) (events : List ScoreEvent) :
    (processBatch c true s events).2 = [] := by
  unfold processBatch
  by_cases h : events = []
  · simp [h]
  · simp [h, runHotKeys_rebuilding_pubs, singletonPubs]

/-! ### Claim C6: parse/validate stage -/

/-- Claim C6 counterexample: an event whose `score` is a non-empty,
non-numeric string passes the handler's validation and accumulates, although
the claim says events with a non-numeric score are rejected.  The check at
src/unnamed/part_000 line 115 compares `score` only against `undefined`,
`null` and `''`; the string `"not-a-number"` matches none of them. -/
theorem nonNumeric_score_accepted :
    eventInvalid ⟨some "p1", some "u1", some 1, some (.str "not-a-number")⟩ = false ∧
    parseBatch [some ⟨some "p1", some "u1", some 1, some (.str "not-a-number")⟩]
      = [⟨some "p1", some "u1", some 1, some (.str "not-a-number")⟩] := by
  exact ⟨rfl, rfl⟩

/-- Claim C6 (amended): a decoded event is rejected iff its `playerId` is
missing or empty, or its `score` is missing, `null`, or the empty string
(a non-numeric, non-empty score string is accepted); rejected messages are
skipped without aborting the batch and the remaining events accumulate in
arrival order (`parseBatch` is the filter of the decodable messages through
the validation test). -/
theorem validation_characterization :
    (∀ e : RawEvent, eventInvalid e = true ↔
      (e.playerId = none ∨ e.playerId = some "" ∨ e.score = none ∨
        e.score = some .null ∨ e.score = some (.str ""))) ∧
    (∀ msgs : List (Option RawEvent),
      parseBatch msgs = (msgs.filterMap id).filter fun e => !eventInvalid e) := by
  constructor
  · intro e
    obtain ⟨pid, u, gm, sc⟩ := e
    cases pid with
    | none => simp [eventInvalid]
    | some p =>
      cases sc with
      | none => simp [eventInvalid]
      | some j =>
        cases j <;> simp [eventInvalid]
  · intro msgs
    induction msgs with
    | nil => rfl
    | cons m rest ih =>
      cases m with
      | none => simpa [parseBatch] using ih
      | some e =>
        by_cases h : eventInvalid e
        · simp [parseBatch, h, ih]
        · simp [parseBatch, h, ih]

/-! ### Claim C7: weekly leaderboard update -/

/-- Claim C7 counterexample: a negative score is not skipped — the weekly
sorted set is incremented by it.  `updateWeeklyLeaderboard` skips only when
`Number(score)` is `NaN` or exactly `0` (src/unnamed/part_005 line 272),
while the claim says every score ≤ 0 is skipped. -/
theorem negative_score_updates_weekly :
    zlookup ((updateWeeklyLeaderboard "2024-W01" emptyStore 1 "p1" (some (-5))).zsets
      (.lbWeekly 1 "2024-W01")) "p1" = some (-5) := by
  rfl

/-- Claim C7 (amended): the weekly step is skipped (with a warning) iff the
score is non-numeric (`Number(score)` is `NaN`) or exactly `0`; every
non-zero numeric score `n` increments the member by exactly `n` and refreshes
the 28-day TTL of the weekly key. -/
theorem weekly_update_characterization (w : String) (s : Store) (gm : Nat) (p : String) :
    updateWeeklyLeaderboard w s gm p none = s ∧
    updateWeeklyLeaderboard w s gm p (some 0) = s ∧
    ∀ n : Int,
      zlookup ((updateWeeklyLeaderboard w s gm p (some n)).zsets (.lbWeekly gm w)) p
        = (if n = 0 then zlookup (s.zsets (.lbWeekly gm w)) p
            else some ((zlookup (s.zsets (.lbWeekly gm w)) p).getD 0 + n)) ∧
      (updateWeeklyLeaderboard w s gm p (some n)).ttls (.lbWeekly gm w)
        = (if n = 0 then s.ttls (.lbWeekly gm w) else some (28 * 24 * 60 * 60)) := by
  refine ⟨rfl, rfl, ?_⟩
  intro n
  by_cases h0 : n = 0
  · subst h0
    simp [updateWeeklyLeaderboard]
  · constructor
    · simp [updateWeeklyLeaderboard, h0, zlookup_zupdate]
    · simp [updateWeeklyLeaderboard, h0]

/-! ### Claim C9: resetConsumerOffsetToEarliest (src/backend/util/db.js) -/

/-- Claim C9 counterexample: when the group delete fails for a reason other
than "group does not exist" (here a timeout), the function still returns
`true` — the inner `catch` only logs and the code continues
("Continue anyway - we'll subscribe from beginning", src/backend/util/db.js
line 116) — while the claim says it returns `false`. -/
theorem reset_true_despite_failed_delete :
    (resetConsumerOffsetToEarliest ⟨true, true, some "Request timed out", true, true⟩).1
      = true := by
  rfl

/-- Claim C9 (amended): the result is `true` exactly when `admin.connect()`,
`admin.disconnect()` and the consumer reconnect succeed; in particular
deleting a non-existent group is a success, and a group-delete failure of any
kind (like a consumer-disconnect failure) never affects the result. -/
theorem reset_result_characterization (o : ResetOutcome) :
    (resetConsumerOffsetToEarliest o).1 =
      (o.adminConnectOk && o.adminDisconnectOk && o.reconnectOk) := by
  obtain ⟨a, cd, de, ad, rk⟩ := o
  cases a <;> cases ad <;> cases rk <;>
    simp [resetConsumerOffsetToEarliest]

/-! ### Claim C5: needsRebuild (src/unnamed/part_005 lines 465-522) -/

/-- Claim C5: `needsRebuild` returns `true` iff the store check errored, or
every known game mode's global leaderboard is empty and no player records
exist (rate-limiter keys excluded from the scan).  When no game modes are
seeded the first conjunct is vacuous, so the decision collapses to "no
player records exist". -/
theorem needsRebuild_iff (v : StoreView) (storeErr : Bool) :
    needsRebuild v storeErr = true ↔
      (storeErr = true ∨
        ((∀ id ∈ v.gameModes, v.zcard ("leaderboard:" ++ toString id ++ ":global") = 0) ∧
          playerScanKeys v = [])) := by
  unfold needsRebuild
  cases storeErr with
  | true => simp
  | false =>
    simp only [Bool.false_eq_true, if_false, false_or]
    by_cases hgm : v.gameModes.isEmpty
    · have : v.gameModes = [] := List.isEmpty_iff.mp hgm
      simp [hgm, this, List.isEmpty_iff]
    · simp only [hgm, if_false]
      by_cases hany :
          v.gameModes.any (fun id => 0 < v.zcard ("leaderboard:" ++ toString id ++ ":global"))
      · simp only [hany, if_true]
        obtain ⟨id, hid, hpos⟩ := List.any_eq_true.mp hany
        constructor
        · intro h; exact absurd h (by simp)
        · rintro ⟨hall, -⟩
          have := hall id hid
          simp [this] at hpos
      · simp only [hany, if_false, List.isEmpty_iff]
        have hall : ∀ id ∈ v.gameModes,
            v.zcard ("leaderboard:" ++ toString id ++ ":global") = 0 := by
          intro id hid
          by_contra hne
          exact hany (List.any_eq_true.mpr ⟨id, hid, by simpa [Nat.pos_iff_ne_zero] using hne⟩)
        simp only [Bool.false_eq_true, if_false, List.isEmpty_iff]
        exact ⟨fun h => ⟨hall, h⟩, fun h => h.2⟩

/-! ### Claim C8: getWeekIdentifier (src/unnamed/part_005 lines 345-355) -/

/-- Ceiling of a quotient of naturals as a natural floor division. -/
theorem ceil_natCast_div (a b : Nat) (hb : 0 < b) :
    (⌈(a : ℚ) / (b : ℚ)⌉ : ℤ) = ((a + b - 1) / b : ℕ) := by
  have hbq : (0 : ℚ) < (b : ℚ) := by exact_mod_cast hb
  have hdm : b * ((a + b - 1) / b) + (a + b - 1) % b = a + b - 1 :=
    Nat.div_add_mod (a + b - 1) b
  have hrb : (a + b - 1) % b < b := Nat.mod_lt _ hb
  set q : ℕ := (a + b - 1) / b with hq
  set r : ℕ := (a + b - 1) % b with hr
  have key : b * q + r + 1 = a + b := by rw [hdm]; omega
  have keyz : (b : ℤ) * q + r + 1 = a + b := by exact_mod_cast key
  rw [Int.ceil_eq_iff]
  constructor
  · rw [show ((((q : ℕ) : ℤ) : ℚ)) - 1 = ((((q : ℕ) : ℤ) - 1 : ℤ) : ℚ) by push_cast; ring]
    rw [lt_div_iff₀ hbq]
    have h1 : (((q : ℕ) : ℤ) - 1) * b < a := by
      nlinarith [keyz, Int.natCast_nonneg r]
    calc ((((q : ℕ) : ℤ) - 1 : ℤ) : ℚ) * b = (((((q : ℕ) : ℤ) - 1) * b : ℤ) : ℚ) := by push_cast; ring
    _ < a := by exact_mod_cast h1
  · rw [div_le_iff₀ hbq]
    have hrbz : (r : ℤ) < b := by exact_mod_cast hrb
    have h2 : (a : ℤ) ≤ ((q : ℕ) : ℤ) * b := by nlinarith [keyz, hrbz]
    calc (a : ℚ) ≤ ((((q : ℕ) : ℤ) * b : ℤ) : ℚ) := by exact_mod_cast h2
    _ = (((q : ℕ) : ℤ) : ℚ) * b := by push_cast; ring

/-- The week number computed by `getWeekIdentifier` as a closed natural
ceiling division. -/
theorem weekNumber_eq (ms d : Nat) :
    (⌈((ms : ℚ) / 86400000 + (d : ℚ) + 1) / 7⌉ : ℤ)
      = ((ms + (d + 1) * 86400000 + 604800000 - 1) / 604800000 : ℕ) := by
  have h : ((ms : ℚ) / 86400000 + (d : ℚ) + 1) / 7
      = ((ms + (d + 1) * 86400000 : ℕ) : ℚ) / ((604800000 : ℕ) : ℚ) := by
    push_cast
    field_simp
    ring
  rw [h, ceil_natCast_div _ _ (by norm_num)]

/-- The week number of the claim's formula as a closed natural ceiling
division. -/
theorem claimWeekNumber_eq (days d : Nat) :
    (⌈((days : ℚ) + (d : ℚ) + 1) / 7⌉ : ℤ) = ((days + d + 1 + 7 - 1) / 7 : ℕ) := by
  have h : ((days : ℚ) + (d : ℚ) + 1) / 7 = ((days + d + 1 : ℕ) : ℚ) / ((7 : ℕ) : ℚ) := by
    push_cast
    ring
  rw [h, ceil_natCast_div _ _ (by norm_num)]

/-- Claim C8 counterexample: at 12:00 on January 7 (year 2023: January 1 is a
Sunday, `getDay() = 0`), the elapsed time since January 1 is 6.5 days
(561,600,000 ms).  The code's fractional computation yields
`ceil((6.5 + 0 + 1)/7) = 2`, i.e. `"2023-W02"`, while the claim's formula
with `daysSinceJan1` an integer count of whole days yields
`ceil((6 + 0 + 1)/7) = 1`, i.e. `"2023-W01"`. -/
theorem weekIdentifier_fractional_divergence :
    getWeekIdentifier 2023 561600000 0 = "2023-W02" ∧
    claimWeekIdentifier 2023 561600000 0 = "2023-W01" ∧
    ("2023-W02" : String) ≠ "2023-W01" := by
  refine ⟨?_, ?_, by decide⟩
  · show toString (2023 : ℤ) ++ "-W" ++
      padStart2 (toString (⌈(((561600000 : Nat) : ℚ) / 86400000 + ((0 : Nat) : ℚ) + 1) / 7⌉ : ℤ))
        = "2023-W02"
    rw [weekNumber_eq]
    rfl
  · show toString (2023 : ℤ) ++ "-W" ++
      padStart2 (toString
        (⌈((((561600000 : Nat) / 86400000 : Nat) : ℚ) + ((0 : Nat) : ℚ) + 1) / 7⌉ : ℤ))
        = "2023-W01"
    rw [claimWeekNumber_eq]
    rfl

/-- Claim C8 (amended): the identifier is `YYYY-Www` with `YYYY` the current
year and `ww` the zero-padded value of
`ceil((pastDaysOfYear + weekdayOfJan1 + 1) / 7)` where `pastDaysOfYear` is
the *exact (possibly fractional)* elapsed time since January 1 in days
(`(date - startOfYear) / 86400000`), equivalently the natural ceiling
division `(ms + (weekday + 1)·86400000 + 604800000 - 1) / 604800000`. -/
theorem getWeekIdentifier_closed_form (year : Int) (ms d : Nat) :
    getWeekIdentifier year ms d
      = toString year ++ "-W" ++
          padStart2 (toString
            (((ms + (d + 1) * 86400000 + 604800000 - 1) / 604800000 : ℕ) : ℤ)) := by
  show toString year ++ "-W" ++
      padStart2 (toString (⌈((ms : ℚ) / 86400000 + (d : ℚ) + 1) / 7⌉ : ℤ)) = _
  rw [weekNumber_eq]

/-! ### Claim C10: a zero-score event is accepted and applied -/

/-- Claim C10: an event with `score` exactly the number `0` (and a player id)
passes validation; processing it as the only event of a batch increments the
player's `games_played` by 1 (here from a fresh player record), leaves the
global and daily members at their old value plus 0 (creating them with score
0 if absent), and skips the weekly step entirely: the weekly sorted set and
the weekly key's TTL are untouched. -/
theorem zero_score_event_applied (c : Clock) (s : Store)
    (h : s.hashes (.player "p1") = []) :
    eventInvalid ⟨some "p1", some "u1", some 1, some (.num 0)⟩ = false ∧
    hlookup (((processBatch c false s [⟨"p1", "u1", 1, 0⟩]).1).hashes (.player "p1"))
        "games_played" = some (.int 1) ∧
    zlookup (((processBatch c false s [⟨"p1", "u1", 1, 0⟩]).1).zsets (.lbGlobal 1)) "p1"
      = some ((zlookup (s.zsets (.lbGlobal 1)) "p1").getD 0) ∧
    zlookup (((processBatch c false s [⟨"p1", "u1", 1, 0⟩]).1).zsets
        (.lbDaily 1 c.today)) "p1"
      = some ((zlookup (s.zsets (.lbDaily 1 c.today)) "p1").getD 0) ∧
    ((processBatch c false s [⟨"p1", "u1", 1, 0⟩]).1).zsets (.lbWeekly 1 c.weekId)
      = s.zsets (.lbWeekly 1 c.weekId) ∧
    ((processBatch c false s [⟨"p1", "u1", 1, 0⟩]).1).ttls (.lbWeekly 1 c.weekId)
      = s.ttls (.lbWeekly 1 c.weekId) := by
  have hstore : (processBatch c false s [⟨"p1", "u1", 1, 0⟩]).1
      = applySingleton c s s ⟨"p1", "u1", 1, 0⟩ := rfl
  have hex : existsPlayer s "p1" = false := by
    simp [existsPlayer, h]
  refine ⟨rfl, ?_, ?_, ?_, ?_, ?_⟩
  · rw [hstore]
    simp [applySingleton, updateWeeklyLeaderboard, hincrby, hset1, hsetAll, hupdate,
      hlookup, hex, h]
  · rw [hstore]
    simp only [applySingleton, updateWeeklyLeaderboard, hex, Bool.false_eq_true, if_false,
      hincrby_zsets, hsetAll_zsets, hset1_zsets, zincrby_zsets, expireKey_zsets]
    simp [zlookup_zupdate]
  · rw [hstore]
    simp only [applySingleton, updateWeeklyLeaderboard, hex, Bool.false_eq_true, if_false,
      hincrby_zsets, hsetAll_zsets, hset1_zsets, zincrby_zsets, expireKey_zsets]
    simp [zlookup_zupdate]
  · rw [hstore]
    simp only [applySingleton, updateWeeklyLeaderboard, hex, Bool.false_eq_true, if_false,
      hincrby_zsets, hsetAll_zsets, hset1_zsets, zincrby_zsets, expireKey_zsets]
    simp
  · rw [hstore]
    simp only [applySingleton, updateWeeklyLeaderboard, hex, Bool.false_eq_true, if_false,
      hincrby_ttls, hsetAll_ttls, hset1_ttls, zincrby_ttls, expireKey_ttls]
    simp

/-- Witness for the claim C10 theorem at a concrete clock and the empty
store. -/
theorem zero_score_event_applied_witness :
    emptyStore.hashes (.player "p1") = [] ∧
    (eventInvalid ⟨some "p1", some "u1", some 1, some (.num 0)⟩ = false ∧
    hlookup (((processBatch ⟨"2024-01-01", "2024-W01", "t0"⟩ false emptyStore
        [⟨"p1", "u1", 1, 0⟩]).1).hashes (.player "p1"))
        "games_played" = some (.int 1) ∧
    zlookup (((processBatch ⟨"2024-01-01", "2024-W01", "t0"⟩ false emptyStore
        [⟨"p1", "u1", 1, 0⟩]).1).zsets (.lbGlobal 1)) "p1"
      = some ((zlookup (emptyStore.zsets (.lbGlobal 1)) "p1").getD 0) ∧
    zlookup (((processBatch ⟨"2024-01-01", "2024-W01", "t0"⟩ false emptyStore
        [⟨"p1", "u1", 1, 0⟩]).1).zsets
        (.lbDaily 1 (Clock.mk "2024-01-01" "2024-W01" "t0").today)) "p1"
      = some ((zlookup (emptyStore.zsets
          (.lbDaily 1 (Clock.mk "2024-01-01" "2024-W01" "t0").today)) "p1").getD 0) ∧
    ((processBatch ⟨"2024-01-01", "2024-W01", "t0"⟩ false emptyStore
        [⟨"p1", "u1", 1, 0⟩]).1).zsets
        (.lbWeekly 1 (Clock.mk "2024-01-01" "2024-W01" "t0").weekId)
      = emptyStore.zsets (.lbWeekly 1 (Clock.mk "2024-01-01" "2024-W01" "t0").weekId) ∧
    ((processBatch ⟨"2024-01-01", "2024-W01", "t0"⟩ false emptyStore
        [⟨"p1", "u1", 1, 0⟩]).1).ttls
        (.lbWeekly 1 (Clock.mk "2024-01-01" "2024-W01" "t0").weekId)
      = emptyStore.ttls (.lbWeekly 1 (Clock.mk "2024-01-01" "2024-W01" "t0").weekId)) :=
  ⟨rfl, zero_score_event_applied ⟨"2024-01-01", "2024-W01", "t0"⟩ emptyStore rfl⟩

/-! ### Claim C2: games_played vs the standalone pipeline -/

/-- Claim C2 failing input: one batch with two accepted events for the *new*
player `p1` under different game modes.  Both are standalone events (their
keys `p1:1` and `p1:2` each occur once), so both `EXISTS player:p1` checks
run before the single pipeline executes and both see the player as absent.
The second event's creating `HSET` (with `games_played: 0, total_score: 0`)
then executes *after* the first event's `HINCRBY`s inside the same pipeline
and clobbers them: `games_played` ends at 1 (and `total_score` at 7), while
the claim — and the spec's invariant — require `games_played = 2` (and
`total_score = 12`). -/
theorem games_played_clobbered_by_second_singleton :
    hlookup (((processBatch ⟨"2024-01-01", "2024-W01", "t0"⟩ false emptyStore
        [⟨"p1", "u1", 1, 5⟩, ⟨"p1", "u1", 2, 7⟩]).1).hashes (.player "p1"))
        "games_played" = some (.int 1) ∧
    hlookup (((processBatch ⟨"2024-01-01", "2024-W01", "t0"⟩ false emptyStore
        [⟨"p1", "u1", 1, 5⟩, ⟨"p1", "u1", 2, 7⟩]).1).hashes (.player "p1"))
        "total_score" = some (.int 7) := by
  exact ⟨by decide, by decide⟩

/-! ### Claim C1: the global leaderboard score is the sum of event scores -/

theorem zafter_nil (o : Option Int) : zafter o [] = o := rfl

theorem zafter_append (o : Option Int) (l1 l2 : List Int) :
    zafter (zafter o l1) l2 = zafter o (l1 ++ l2) := by
  by_cases h1 : l1 = []
  · subst h1; simp [zafter_nil]
  · by_cases h2 : l2 = []
    · subst h2; simp [zafter]
    · have h12 : l1 ++ l2 ≠ [] := by simp [h1]
      simp [zafter, h1, h2, h12, add_assoc]

@[simp] theorem updateWeekly_zsets_global (w : String) (s : Store) (gm : Nat) (p : String)
    (sc : Option Int) (g : Nat) :
    (updateWeeklyLeaderboard w s gm p sc).zsets (.lbGlobal g) = s.zsets (.lbGlobal g) :=
  updateWeeklyLeaderboard_zsets_ne _ _ _ _ _ _ (fun _ _ h => RKey.noConfusion h)

@[simp] theorem updateWeekly_zsets_daily (w : String) (s : Store) (gm : Nat) (p : String)
    (sc : Option Int) (g : Nat) (d : String) :
    (updateWeeklyLeaderboard w s gm p sc).zsets (.lbDaily g d) = s.zsets (.lbDaily g d) :=
  updateWeeklyLeaderboard_zsets_ne _ _ _ _ _ _ (fun _ _ h => RKey.noConfusion h)

theorem globalScore_applyEvent (c : Clock) (s : Store) (e : ScoreEvent) (K : String × Nat) :
    globalScore (applyEvent c s e) K.2 K.1 =
      if eventKey e = K then some ((globalScore s K.2 K.1).getD 0 + e.score)
      else globalScore s K.2 K.1 := by
  obtain ⟨p, gm⟩ := K
  simp only [globalScore, applyEvent, hincrby_zsets, expireKey_zsets, zincrby_zsets,
    apply_ite Store.zsets, hset1_zsets, hsetAll_zsets, ite_self, reduceCtorEq, if_true,
    if_false, ite_true, ite_false, RKey.lbGlobal.injEq, updateWeekly_zsets_global]
  by_cases hgm : gm = e.gameMode
  · subst hgm
    rw [if_pos rfl, zlookup_zupdate]
    by_cases hm : p = e.playerId
    · subst hm
      simp [eventKey]
    · have hkey : ¬ (eventKey e = (p, e.gameMode)) := by
        intro h
        exact hm (congrArg Prod.fst h).symm
      simp [hm, hkey]
  · have hkey : ¬ (eventKey e = (p, gm)) := by
      intro h
      exact hgm (congrArg Prod.snd h).symm
    simp [hgm, hkey]

theorem globalScore_applySingleton (c : Clock) (snap : Store) (s : Store) (e : ScoreEvent)
    (K : String × Nat) :
    globalScore (applySingleton c snap s e) K.2 K.1 =
      if eventKey e = K then some ((globalScore s K.2 K.1).getD 0 + e.score)
      else globalScore s K.2 K.1 := by
  obtain ⟨p, gm⟩ := K
  simp only [globalScore, applySingleton, hincrby_zsets, expireKey_zsets, zincrby_zsets,
    apply_ite Store.zsets, hset1_zsets, hsetAll_zsets, ite_self, reduceCtorEq, if_true,
    if_false, ite_true, ite_false, RKey.lbGlobal.injEq, updateWeekly_zsets_global]
  by_cases hgm : gm = e.gameMode
  · subst hgm
    rw [if_pos rfl, zlookup_zupdate]
    by_cases hm : p = e.playerId
    · subst hm
      simp [eventKey]
    · have hkey : ¬ (eventKey e = (p, e.gameMode)) := by
        intro h
        exact hm (congrArg Prod.fst h).symm
      simp [hm, hkey]
  · have hkey : ¬ (eventKey e = (p, gm)) := by
      intro h
      exact hgm (congrArg Prod.snd h).symm
    simp [hgm, hkey]

theorem globalScore_foldl {step : Store → ScoreEvent → Store} (K : String × Nat)
    (hstep : ∀ s e, globalScore (step s e) K.2 K.1 =
      if eventKey e = K then some ((globalScore s K.2 K.1).getD 0 + e.score)
      else globalScore s K.2 K.1) :
    ∀ (l : List ScoreEvent) (s : Store),
      globalScore (l.foldl step s) K.2 K.1 = zafter (globalScore s K.2 K.1) (scoresFor K l) := by
  intro l
  induction l with
  | nil => intro s; simp [scoresFor, grp, zafter_nil]
  | cons e rest ih =>
    intro s
    rw [List.foldl_cons, ih, hstep]
    by_cases he : eventKey e = K
    · have hsc : scoresFor K (e :: rest) = e.score :: scoresFor K rest := by
        simp [scoresFor, grp, he]
      rw [hsc, if_pos he]
      by_cases hr : scoresFor K rest = []
      · simp [zafter, hr]
      · simp [zafter, hr, add_assoc]
    · have hsc : scoresFor K (e :: rest) = scoresFor K rest := by
        simp [scoresFor, grp, he]
      rw [hsc, if_neg he]

theorem runHotGroup_fst (c : Clock) (rb : Bool) (i : Option Nat) :
    ∀ (l : List ScoreEvent) (t : Option Nat) (s : Store),
      (runHotGroup c rb i t s l).1 = l.foldl (applyEvent c) s := by
  intro l
  induction l with
  | nil => intro t s; rfl
  | cons e rest ih =>
    intro t s
    simp only [runHotGroup]
    split
    · rw [ih, List.foldl_cons]
    · split
      · rw [ih, List.foldl_cons]
      · split
        · rw [ih, List.foldl_cons]
        · simp only []
          rw [ih, List.foldl_cons]

theorem runHotKeys_fst (c : Clock) (rb : Bool) (ir : (String × Nat) → Option Nat)
    (evs : List ScoreEvent) :
    ∀ (ks : List (String × Nat)) (s : Store),
      (runHotKeys c rb ir evs s ks).1 = (ks.flatMap (grp evs)).foldl (applyEvent c) s := by
  intro ks
  induction ks with
  | nil => intro s; rfl
  | cons k rest ih =>
    intro s
    simp only [runHotKeys, List.flatMap_cons, List.foldl_append]
    rw [ih, runHotGroup_fst]

theorem runSingletons_eq_foldl (c : Clock) (snap : Store) :
    ∀ (l : List ScoreEvent) (s : Store),
      runSingletons c snap s l = l.foldl (applySingleton c snap) s := by
  intro l
  induction l with
  | nil => intro s; rfl
  | cons e rest ih => intro s; rw [runSingletons, List.foldl_cons, ih]

/-! Grouping identities -/

theorem mem_dedupKeysAux (a : String × Nat) :
    ∀ (l seen : List (String × Nat)), a ∈ dedupKeysAux seen l ↔ a ∈ l ∧ a ∉ seen := by
  intro l
  induction l with
  | nil => intro seen; simp [dedupKeysAux]
  | cons k rest ih =>
    intro seen
    simp only [dedupKeysAux]
    by_cases hk : k ∈ seen
    · rw [if_pos hk, ih]
      constructor
      · rintro ⟨h1, h2⟩; exact ⟨List.mem_cons_of_mem _ h1, h2⟩
      · rintro ⟨h1, h2⟩
        rcases List.mem_cons.mp h1 with h | h
        · subst h; exact absurd hk h2
        · exact ⟨h, h2⟩
    · rw [if_neg hk, List.mem_cons, ih]
      constructor
      · rintro (h | ⟨h1, h2⟩)
        · subst h; exact ⟨List.mem_cons_self _ _, hk⟩
        · refine ⟨List.mem_cons_of_mem _ h1, fun hs => h2 (List.mem_cons_of_mem _ hs)⟩
      · rintro ⟨h1, h2⟩
        rcases List.mem_cons.mp h1 with h | h
        · exact Or.inl h
        · by_cases hak : a = k
          · exact Or.inl hak
          · refine Or.inr ⟨h, fun hs => ?_⟩
            rcases List.mem_cons.mp hs with h' | h'
            · exact hak h'
            · exact h2 h'

theorem nodup_dedupKeysAux :
    ∀ (l seen : List (String × Nat)), (dedupKeysAux seen l).Nodup := by
  intro l
  induction l with
  | nil => intro seen; simp [dedupKeysAux]
  | cons k rest ih =>
    intro seen
    simp only [dedupKeysAux]
    by_cases hk : k ∈ seen
    · rw [if_pos hk]; exact ih seen
    · rw [if_neg hk]
      refine List.nodup_cons.mpr ⟨?_, ih _⟩
      intro hmem
      exact ((mem_dedupKeysAux k rest (k :: seen)).mp hmem).2 (List.mem_cons_self _ _)

theorem mem_grp (evs : List ScoreEvent) (K : String × Nat) (e : ScoreEvent) :
    e ∈ grp evs K ↔ e ∈ evs ∧ eventKey e = K := by
  simp [grp]

theorem mem_batchKeys (evs : List ScoreEvent) (K : String × Nat) :
    K ∈ batchKeys evs ↔ ∃ e ∈ evs, eventKey e = K := by
  rw [batchKeys, dedupKeys, mem_dedupKeysAux]
  simp

theorem grp_ne_nil (evs : List ScoreEvent) (K : String × Nat) :
    grp evs K ≠ [] ↔ ∃ e ∈ evs, eventKey e = K := by
  constructor
  · intro h
    obtain ⟨e, he⟩ := List.exists_mem_of_ne_nil _ h
    obtain ⟨h1, h2⟩ := (mem_grp evs K e).mp he
    exact ⟨e, h1, h2⟩
  · rintro ⟨e, h1, h2⟩
    exact List.ne_nil_of_mem ((mem_grp evs K e).mpr ⟨h1, h2⟩)

theorem mem_hotKeys (evs : List ScoreEvent) (K : String × Nat) :
    K ∈ hotKeys evs ↔ 2 ≤ (grp evs K).length := by
  rw [hotKeys, List.mem_filter]
  constructor
  · rintro ⟨-, h⟩; simpa using h
  · intro h
    refine ⟨?_, by simpa using h⟩
    rw [mem_batchKeys, ← grp_ne_nil]
    intro hnil
    rw [hnil] at h
    simp at h

theorem nodup_hotKeys (evs : List ScoreEvent) : (hotKeys evs).Nodup :=
  List.Nodup.filter _ (nodup_dedupKeysAux _ _)

theorem grp_grp (evs : List ScoreEvent) (k K : String × Nat) :
    grp (grp evs k) K = if k = K then grp evs K else [] := by
  by_cases hkK : k = K
  · subst hkK
    rw [if_pos rfl, grp, grp, List.filter_filter]
    exact List.filter_congr fun e _ => by cases h : decide (eventKey e = k) <;> simp [h]
  · rw [if_neg hkK, grp, List.filter_eq_nil_iff]
    intro e he
    have := (mem_grp evs k e).mp he
    simp [this.2, hkK]

theorem grp_append (l1 l2 : List ScoreEvent) (K : String × Nat) :
    grp (l1 ++ l2) K = grp l1 K ++ grp l2 K := by
  simp [grp]

theorem grp_flatMap (ks : List (String × Nat)) (evs : List ScoreEvent) (K : String × Nat) :
    grp (ks.flatMap (grp evs)) K = ks.flatMap fun k => grp (grp evs k) K := by
  induction ks with
  | nil => rfl
  | cons k rest ih => simp only [List.flatMap_cons, grp_append, ih]

theorem flatMap_grp_ite (evs : List ScoreEvent) (K : String × Nat) :
    ∀ ks : List (String × Nat), ks.Nodup →
      (ks.flatMap fun k => if k = K then grp evs K else [])
        = if K ∈ ks then grp evs K else [] := by
  intro ks
  induction ks with
  | nil => intro _; simp
  | cons k rest ih =>
    intro hnd
    obtain ⟨hk, hrest⟩ := List.nodup_cons.mp hnd
    simp only [List.flatMap_cons, ih hrest]
    by_cases hkK : k = K
    · subst hkK
      have : k ∉ rest := hk
      simp [this]
    · by_cases hKr : K ∈ rest
      · have hc : K ∈ k :: rest := List.mem_cons_of_mem _ hKr
        simp [hkK, hKr, hc]
      · have hc : K ∉ k :: rest := by
          intro h
          rcases List.mem_cons.mp h with h | h
          · exact hkK h.symm
          · exact hKr h
        simp [hkK, hKr, hc]

theorem grp_hotEvents (evs : List ScoreEvent) (K : String × Nat) :
    grp ((hotKeys evs).flatMap (grp evs)) K
      = if 2 ≤ (grp evs K).length then grp evs K else [] := by
  rw [grp_flatMap]
  have : ((hotKeys evs).flatMap fun k => grp (grp evs k) K)
      = (hotKeys evs).flatMap fun k => if k = K then grp evs K else [] := by
    apply List.flatMap_congr ?_
    intro k _
    exact grp_grp evs k K
  rw [this, flatMap_grp_ite evs K _ (nodup_hotKeys evs)]
  by_cases h2 : 2 ≤ (grp evs K).length
  · rw [if_pos ((mem_hotKeys evs K).mpr h2), if_pos h2]
  · rw [if_neg (fun hm => h2 ((mem_hotKeys evs K).mp hm)), if_neg h2]

theorem grp_singletonEvents (evs : List ScoreEvent) (K : String × Nat) :
    grp (singletonEvents evs) K
      = if (grp evs K).length = 1 then grp evs K else [] := by
  rw [singletonEvents, grp, List.filter_filter]
  have hcongr : List.filter
      (fun e => decide (eventKey e = K) && decide ((grp evs (eventKey e)).length = 1)) evs
      = List.filter
      (fun e => decide (eventKey e = K) && decide ((grp evs K).length = 1)) evs := by
    apply List.filter_congr
    intro e _
    cases h : decide (eventKey e = K) with
    | false => simp
    | true =>
      have : eventKey e = K := of_decide_eq_true h
      rw [this]
  rw [hcongr]
  by_cases h1 : (grp evs K).length = 1
  · have hfun : (fun e => decide (eventKey e = K) && decide ((grp evs K).length = 1))
        = fun e => decide (eventKey e = K) := by
      funext e
      rw [decide_eq_true h1, Bool.and_true]
    rw [hfun, if_pos h1]
    rfl
  · have hfun : (fun e => decide (eventKey e = K) && decide ((grp evs K).length = 1))
        = fun _ => false := by
      funext e
      rw [decide_eq_false h1, Bool.and_false]
    rw [hfun, if_neg h1]
    simp

theorem grp_hot_append_singles (evs : List ScoreEvent) (K : String × Nat) :
    grp ((hotKeys evs).flatMap (grp evs)) K ++ grp (singletonEvents evs) K = grp evs K := by
  rw [grp_hotEvents, grp_singletonEvents]
  rcases Nat.lt_or_ge (grp evs K).length 2 with h | h
  · interval_cases hlen : (grp evs K).length
    · have : grp evs K = [] := List.length_eq_zero.mp hlen
      simp [this]
    · simp [hlen]
  · have h1 : ¬ ((grp evs K).length = 1) := by omega
    simp [h, h1]

theorem globalScore_processBatch (c : Clock) (rb : Bool) (sB : Store)
    (evs : List ScoreEvent) (K : String × Nat) :
    globalScore (processBatch c rb sB evs).1 K.2 K.1
      = zafter (globalScore sB K.2 K.1) (scoresFor K evs) := by
  by_cases hnil : evs = []
  · subst hnil
    simp [processBatch, scoresFor, grp, zafter_nil]
  · have h1 : (processBatch c rb sB evs).1
        = (singletonEvents evs).foldl
            (applySingleton c ((runHotKeys c rb (initialRank sB) evs sB (hotKeys evs)).1))
            ((runHotKeys c rb (initialRank sB) evs sB (hotKeys evs)).1) := by
      simp only [processBatch, if_neg hnil]
      rw [runSingletons_eq_foldl]
    rw [h1]
    rw [globalScore_foldl K (fun s e => globalScore_applySingleton c _ s e K)]
    rw [runHotKeys_fst]
    rw [globalScore_foldl K (fun s e => globalScore_applyEvent c s e K)]
    rw [zafter_append]
    have : scoresFor K ((hotKeys evs).flatMap (grp evs)) ++ scoresFor K (singletonEvents evs)
        = scoresFor K evs := by
      rw [scoresFor, scoresFor, scoresFor, ← List.map_append, grp_hot_append_singles]
    rw [this]

theorem globalScore_processBatches (bs : List BatchIn) (s : Store) (K : String × Nat) :
    globalScore (processBatches bs s) K.2 K.1
      = zafter (globalScore s K.2 K.1) (scoresFor K (eventsOf bs)) := by
  induction bs generalizing s with
  | nil => simp [processBatches, eventsOf, scoresFor, grp, zafter_nil]
  | cons b rest ih =>
    have hun : processBatches (b :: rest) s
        = processBatches rest (processBatch b.clock b.rebuilding s b.events).1 := rfl
    rw [hun, ih, globalScore_processBatch, zafter_append]
    have : scoresFor K b.events ++ scoresFor K (eventsOf rest)
        = scoresFor K (eventsOf (b :: rest)) := by
      rw [scoresFor, scoresFor, scoresFor, ← List.map_append, ← grp_append]
      rfl
    rw [this]

/-- Claim C1: starting from an empty store, after the batch handler processes
any sequence of batches of validated events — with its splits into hot groups
and standalone pipelines, under any replay flags and clocks — the member
`playerId` of the sorted set `leaderboard:{gameMode}:global` carries exactly
the sum of the `score` fields of all processed events with that `playerId`
and `gameMode` (and is absent exactly when there was no such event). -/
theorem global_score_is_sum_of_event_scores (bs : List BatchIn) (gm : Nat) (p : String) :
    zlookup ((processBatches bs emptyStore).zsets (.lbGlobal gm)) p
      = if grp (eventsOf bs) (p, gm) = [] then none
        else some (((grp (eventsOf bs) (p, gm)).map (·.score)).sum) := by
  have h := globalScore_processBatches bs emptyStore (p, gm)
  have h' : zlookup ((processBatches bs emptyStore).zsets (.lbGlobal gm)) p
      = zafter none (scoresFor (p, gm) (eventsOf bs)) := by
    simpa [globalScore, emptyStore, zlookup] using h
  rw [h', zafter, scoresFor]
  by_cases hnil : grp (eventsOf bs) (p, gm) = []
  · simp [hnil]
  · have : ¬ (List.map (fun e => e.score) (grp (eventsOf bs) (p, gm)) = []) := by
      simp [hnil]
    simp [hnil, this]

/-! ### Claim C3: hot-group rank-change notifications -/

theorem runHotGroup_pubs_eq_trace (c : Clock) (i : Option Nat) :
    ∀ (l : List ScoreEvent) (t : Option Nat) (s : Store),
      (runHotGroup c false i t s l).2 = rankDiffTrace c (prevOf t i) s l := by
  intro l
  induction l with
  | nil => intro t s; rfl
  | cons e rest ih =>
    intro t s
    simp only [runHotGroup, rankDiffTrace]
    cases hrk : getPlayerRank (applyEvent c s e) e.gameMode e.playerId with
    | none => exact ih t (applyEvent c s e)
    | some rd =>
      simp only [Bool.false_eq_true, if_false]
      by_cases hp : some rd.rank = prevOf t i
      · rw [if_pos hp, if_pos hp, List.nil_append]
        exact ih (some rd.rank) (applyEvent c s e)
      · rw [if_neg hp, if_neg hp, List.singleton_append]
        exact congrArg _ (ih (some rd.rank) (applyEvent c s e))

theorem runHotGroup_pubs_key (c : Clock) (rb : Bool) (i : Option Nat) (k : String × Nat) :
    ∀ (l : List ScoreEvent), (∀ e ∈ l, eventKey e = k) →
      ∀ (t : Option Nat) (s : Store) (rc : RankChange),
        rc ∈ (runHotGroup c rb i t s l).2 → (rc.playerId, rc.gameMode) = k := by
  intro l
  induction l with
  | nil => intro _ t s rc h; cases h
  | cons e rest ih =>
    intro hl t s rc hrc
    have hek : eventKey e = k := hl e (List.mem_cons_self _ _)
    have hrest : ∀ e' ∈ rest, eventKey e' = k := fun e' he' =>
      hl e' (List.mem_cons_of_mem _ he')
    simp only [runHotGroup] at hrc
    split at hrc
    · exact ih hrest _ _ rc hrc
    · split at hrc
      · exact ih hrest _ _ rc hrc
      · split at hrc
        · exact ih hrest _ _ rc hrc
        · rcases List.mem_cons.mp hrc with h | h
          · subst h; exact hek
          · exact ih hrest _ _ rc h

theorem pubsForKey_all (K : String × Nat) (l : List RankChange)
    (h : ∀ rc ∈ l, (rc.playerId, rc.gameMode) = K) : pubsForKey K l = l :=
  List.filter_eq_self.mpr fun rc hrc => decide_eq_true (h rc hrc)

theorem pubsForKey_none (K : String × Nat) (l : List RankChange)
    (h : ∀ rc ∈ l, (rc.playerId, rc.gameMode) ≠ K) : pubsForKey K l = [] :=
  List.filter_eq_nil_iff.mpr fun rc hrc => by simp [h rc hrc]

theorem pubsForKey_append (K : String × Nat) (l1 l2 : List RankChange) :
    pubsForKey K (l1 ++ l2) = pubsForKey K l1 ++ pubsForKey K l2 := by
  simp [pubsForKey]

theorem pubsForKey_runHotKeys (c : Clock) (ir : (String × Nat) → Option Nat)
    (evs : List ScoreEvent) (K : String × Nat) :
    ∀ (ks : List (String × Nat)), ks.Nodup →
      ∀ s : Store, pubsForKey K (runHotKeys c false ir evs s ks).2
        = if K ∈ ks then
            (runHotGroup c false (ir K) none
              (((ks.takeWhile fun k => decide (k ≠ K)).flatMap (grp evs)).foldl
                (applyEvent c) s)
              (grp evs K)).2
          else [] := by
  intro ks
  induction ks with
  | nil => intro _ s; simp [runHotKeys, pubsForKey]
  | cons k rest ih =>
    intro hnd s
    obtain ⟨hk, hrest⟩ := List.nodup_cons.mp hnd
    simp only [runHotKeys]
    rw [pubsForKey_append]
    by_cases hkK : k = K
    · subst hkK
      have h1 : pubsForKey k (runHotGroup c false (ir k) none s (grp evs k)).2
          = (runHotGroup c false (ir k) none s (grp evs k)).2 :=
        pubsForKey_all _ _ (fun rc hrc =>
          runHotGroup_pubs_key c false (ir k) k (grp evs k)
            (fun e he => ((mem_grp evs k e).mp he).2) none s rc hrc)
      have h2 : pubsForKey k (runHotKeys c false ir evs
          (runHotGroup c false (ir k) none s (grp evs k)).1 rest).2 = [] := by
        rw [ih hrest]
        simp [hk]
      rw [h1, h2, List.append_nil]
      have htk : ((k :: rest).takeWhile fun k' => decide (k' ≠ k)) = [] := by
        simp [List.takeWhile]
      rw [if_pos (List.mem_cons_self _ _), htk]
      rfl
    · have h1 : pubsForKey K (runHotGroup c false (ir k) none s (grp evs k)).2 = [] :=
        pubsForKey_none _ _ (fun rc hrc => by
          have := runHotGroup_pubs_key c false (ir k) k (grp evs k)
            (fun e he => ((mem_grp evs k e).mp he).2) none s rc hrc
          rw [this]
          exact hkK)
      rw [h1, List.nil_append, ih hrest]
      have htk : ((k :: rest).takeWhile fun k' => decide (k' ≠ K))
          = k :: (rest.takeWhile fun k' => decide (k' ≠ K)) := by
        simp [List.takeWhile, hkK]
      have hmem : (K ∈ k :: rest) ↔ (K ∈ rest) := by
        constructor
        · intro h
          rcases List.mem_cons.mp h with h | h
          · exact absurd h.symm hkK
          · exact h
        · exact List.mem_cons_of_mem _
      by_cases hKr : K ∈ rest
      · rw [if_pos hKr, if_pos (hmem.mpr hKr), htk]
        rw [List.flatMap_cons, List.foldl_append, runHotGroup_fst]
      · rw [if_neg hKr, if_neg (fun h => hKr (hmem.mp h))]

theorem singletonPubs_key (sB sF : Store) (evs : List ScoreEvent) (rc : RankChange)
    (hrc : rc ∈ singletonPubs false sB sF evs) :
    ∃ e ∈ evs, (rc.playerId, rc.gameMode) = eventKey e := by
  simp only [singletonPubs, Bool.false_eq_true, if_false] at hrc
  obtain ⟨e, he, hfe⟩ := List.mem_filterMap.mp hrc
  refine ⟨e, he, ?_⟩
  split at hfe
  · cases hfe
  · split at hfe
    · cases hfe
    · cases hfe
      rfl

/-- Claim C3 counterexample (see the doc comment of the amended theorem for
the general statement).  Pre-batch store: global leaderboard of mode 1 holds
p1 with score 1 and p2 with score 7 (so p2 is rank 1, p1 rank 2).  Batch:
two hot groups, p1 twice with +10 and then p2 twice with +1, in that order.
The p1 group runs first and pushes p1 to 21, demoting p2 to rank 2 — the
first conjunct states that the global rank of p2 *immediately before* its own
group's first application is 2.  Yet the only notification published for p2
(second conjunct) is `{oldRank: 1, newRank: 2, score: 8}`: its `oldRank` is
the stale pre-batch snapshot 1, not the rank 2 immediately before the
application, and it is published even though `newRank = 2` equals the rank
immediately before — contradicting the claim's "oldRank is the player's
global rank immediately before that specific application" and its
"published iff newRank differs from that previous rank". -/
theorem hot_group_stale_snapshot_counterexample :
    (getPlayerRank
        (List.foldl (applyEvent ⟨"2024-01-01", "2024-W01", "t0"⟩)
          { emptyStore with
              zsets := fun k => if k = .lbGlobal 1 then [("p1", 1), ("p2", 7)] else [] }
          (grp [⟨"p1", "u", 1, 10⟩, ⟨"p1", "u", 1, 10⟩, ⟨"p2", "u", 1, 1⟩,
            ⟨"p2", "u", 1, 1⟩] ("p1", 1)))
        1 "p2").map (·.rank) = some 2 ∧
    pubsForKey ("p2", 1)
        (processBatch ⟨"2024-01-01", "2024-W01", "t0"⟩ false
          { emptyStore with
              zsets := fun k => if k = .lbGlobal 1 then [("p1", 1), ("p2", 7)] else [] }
          [⟨"p1", "u", 1, 10⟩, ⟨"p1", "u", 1, 10⟩, ⟨"p2", "u", 1, 1⟩,
            ⟨"p2", "u", 1, 1⟩]).2
      = [⟨1, "p2", 2, some 1, 8⟩] := by
  exact ⟨by decide, by decide⟩

/-- Claim C3 (amended): for every hot group — a `(playerId, gameMode)` key
`(p, gm)` with two or more events in the batch — processed in tailing mode,
the events are applied in arrival order, and the notifications published for
that key are exactly the sequential rank-diff trace of the group: each
event's `newRank` is the player's global rank immediately after that
application, its `oldRank` is the tracked rank from the previous application
of the group (the rank immediately after that previous application) or, for
the group's first event, the pre-batch initial snapshot — which may differ
from the rank immediately before the application when hot groups processed
earlier in the batch moved this player — and a notification is published for
an event iff its `newRank` differs from that `previousRank`.  The group's
processing starts from the pre-batch store advanced by the events of the
earlier hot groups (`hotPrefixEvents`). -/
theorem hot_group_notifications (c : Clock) (sB : Store) (evs : List ScoreEvent)
    (p : String) (gm : Nat) (hhot : 2 ≤ (grp evs (p, gm)).length) :
    pubsForKey (p, gm) (processBatch c false sB evs).2
      = rankDiffTrace c (initialRank sB (p, gm))
          ((hotPrefixEvents evs (p, gm)).foldl (applyEvent c) sB)
          (grp evs (p, gm)) := by
  have hne : evs ≠ [] := by
    intro h
    subst h
    simp [grp] at hhot
  simp only [processBatch, if_neg hne]
  rw [pubsForKey_append]
  have hsingle : pubsForKey (p, gm) (singletonPubs false sB
      (runSingletons c (runHotKeys c false (initialRank sB) evs sB (hotKeys evs)).1
        (runHotKeys c false (initialRank sB) evs sB (hotKeys evs)).1
        (singletonEvents evs))
      (singletonEvents evs)) = [] := by
    apply pubsForKey_none
    intro rc hrc
    obtain ⟨e, he, hkey⟩ := singletonPubs_key _ _ _ rc hrc
    rw [hkey]
    have h1 : (grp evs (eventKey e)).length = 1 := by
      have := (List.mem_filter.mp he).2
      simpa using this
    intro hKe
    rw [hKe] at h1
    omega
  rw [hsingle, List.append_nil]
  rw [pubsForKey_runHotKeys c (initialRank sB) evs (p, gm) (hotKeys evs)
    (nodup_hotKeys evs) sB]
  rw [if_pos ((mem_hotKeys evs (p, gm)).mpr hhot)]
  rw [runHotGroup_pubs_eq_trace]
  rfl

/-- Witness for the amended claim C3 theorem: a batch consisting of a single
hot group of two events for (p1, 1) on the empty store. -/
theorem hot_group_notifications_witness :
    2 ≤ (grp [⟨"p1", "u", 1, 5⟩, ⟨"p1", "u", 1, 6⟩] (("p1" : String), 1)).length ∧
    pubsForKey ("p1", 1)
        (processBatch ⟨"2024-01-01", "2024-W01", "t0"⟩ false emptyStore
          [⟨"p1", "u", 1, 5⟩, ⟨"p1", "u", 1, 6⟩]).2
      = rankDiffTrace ⟨"2024-01-01", "2024-W01", "t0"⟩
          (initialRank emptyStore ("p1", 1))
          ((hotPrefixEvents [⟨"p1", "u", 1, 5⟩, ⟨"p1", "u", 1, 6⟩] ("p1", 1)).foldl
            (applyEvent ⟨"2024-01-01", "2024-W01", "t0"⟩) emptyStore)
          (grp [⟨"p1", "u", 1, 5⟩, ⟨"p1", "u", 1, 6⟩] ("p1", 1)) :=
  ⟨by decide, hot_group_notifications ⟨"2024-01-01", "2024-W01", "t0"⟩ emptyStore
    [⟨"p1", "u", 1, 5⟩, ⟨"p1", "u", 1, 6⟩] "p1" 1 (by decide)⟩

end GamingLeaderboard
